import Mathlib

/-!
Shallow embedding of `src/game.py` (the non-transitive dice game):
the probability engine (`ProbabilityCalculator`), the dice model
(`Dice`, `DiceParser`), the commit-reveal fairness generator
(`FairRandomGenerator.generate_fair_number`) and the interactive steps
of `Game` (`determine_first_move`, `user_select_dice`, `play_throw`),
together with theorems settling the specification claims.

Conventions of the embedding:
* Python `int` is `Int`; Python floats produced by `win_count / total_count`
  and `round(x, 4)` are modelled exactly over `ℚ`, with `round(x, 4)`
  embedded as round-half-to-even on `x * 10000`.
* Randomness is made explicit: each interactive routine consumes a list of
  `Commitment`s, the successive outputs of
  `FairRandomGenerator.generate_fair_number`, and a list of input strings,
  the successive answers typed by the user.
* A raised Python exception that escapes a routine is an explicit
  `raised` outcome; `sys.exit` is the `exitGame` outcome.
-/

/-- Embeds class `Dice` of `src/game.py`: an ordered list of integer face
values. The length-6 check of `Dice.__init__` lives in `mkDice` below. -/
structure Dice where
  values : List Int
deriving DecidableEq

/-- Round-half-to-even on a rational, the rounding used by Python's
built-in `round`. -/
def roundHalfEven (q : ℚ) : ℤ :=
  let f := ⌊q⌋
  let r := q - (f : ℚ)
  if r < 1/2 then f
  else if 1/2 < r then f + 1
  else if f % 2 = 0 then f else f + 1

/-- Embeds Python `round(x, 4)` over exact rationals. -/
def round4 (q : ℚ) : ℚ :=
  (roundHalfEven (q * 10000) : ℚ) / 10000

/-- The accumulator pass of `ProbabilityCalculator.compare_dice`: the two
nested `for` loops incrementing `win_count` (when `face_a > face_b`) and
`total_count` (always). -/
def compareCounts (a b : List Int) : Nat × Nat :=
  a.foldl (fun acc face_a =>
    b.foldl (fun acc2 face_b =>
      ((if face_b < face_a then acc2.1 + 1 else acc2.1), acc2.2 + 1)) acc) (0, 0)

/-- Embeds `ProbabilityCalculator.compare_dice`: win probability of
`dice_a` over `dice_b`, rounded to 4 decimal digits. -/
def compare_dice (dice_a dice_b : Dice) : ℚ :=
  let c := compareCounts dice_a.values dice_b.values
  round4 ((c.1 : ℚ) / (c.2 : ℚ))

/-- All ordered face pairs of two dice, in loop order. -/
def allPairs : List Int → List Int → List (Int × Int)
  | [], _ => []
  | x :: xs, b => (b.map fun y => (x, y)) ++ allPairs xs b

/-- Embeds `ProbabilityCalculator.calculate_probabilities`: a square matrix
(as nested lists) whose diagonal entries are the hardcoded constant
`0.3333` and whose off-diagonal entries are `compare_dice`. -/
def calculate_probabilities (dice : List Dice) : List (List ℚ) :=
  (List.range dice.length).map fun i =>
    (List.range dice.length).map fun j =>
      if i = j then 3333/10000
      else compare_dice (dice.getD i ⟨[]⟩) (dice.getD j ⟨[]⟩)

/-- Models Python `str.strip()` on a character list: drop leading and
trailing whitespace. -/
def stripChars (cs : List Char) : List Char :=
  ((cs.dropWhile Char.isWhitespace).reverse.dropWhile Char.isWhitespace).reverse

/-- Models Python `str.strip()`: drop leading and trailing whitespace.
Interactive strings are handled as their character lists. -/
def pyStrip (s : String) : List Char :=
  stripChars s.data

/-- Models Python `str.lower()` on a character list (ASCII inputs). -/
def pyLower (cs : List Char) : List Char :=
  cs.map Char.toLower

/-- Value of a nonempty all-digit character list, else `none`. -/
def decDigits (cs : List Char) : Option Nat :=
  if cs ≠ [] ∧ cs.all Char.isDigit then
    some (cs.foldl (fun n c => n * 10 + (c.toNat - 48)) 0)
  else none

/-- Models Python `int(...)` on a stripped string: an optional sign followed
by decimal digits; anything else raises `ValueError`, modelled as `none`. -/
def pyInt (cs : List Char) : Option Int :=
  match cs with
  | '-' :: rest => (decDigits rest).map fun n => -(n : Int)
  | '+' :: rest => (decDigits rest).map fun n => (n : Int)
  | _ => (decDigits cs).map fun n => (n : Int)

/-- Classification of one interactive input string, shared by every
interactive step of `Game`: the checks `.lower() == "x"`,
`.lower() == "?"` and the `int(...)` conversion, in source order. -/
inductive InputAction where
  | exit
  | help
  | val (u : Int)
  | invalid
deriving DecidableEq

/-- Decision tree applied by each interactive step of `Game` to the
stripped input: exit request, help request, parsed integer, or a
`ValueError` from `int(...)` (constructor `invalid`). -/
def classify (s : String) : InputAction :=
  let cs := pyStrip s
  if pyLower cs = ['x'] then InputAction.exit
  else if pyLower cs = ['?'] then InputAction.help
  else
    match pyInt cs with
    | some u => InputAction.val u
    | none => InputAction.invalid

/-- One output of `FairRandomGenerator.generate_fair_number`: the secret
value, the published HMAC tag and the secret key. -/
structure Commitment where
  value : Int
  tag : String
  key : List Nat
deriving DecidableEq

/-- Embeds `FairRandomGenerator.generate_fair_number` with its effects made
explicit: `keyedHash` models the library call
`hmac.new(key, msg, hashlib.sha3_256).hexdigest()` (lowercase-hex
HMAC-SHA3-256 of the UTF-8 message under the key), `secret_key` models the
sampled `secrets.token_bytes(32)`, and `raw` models the sampled
`secrets.randbelow(max_val - min_val + 1)`. Returns
`(computer_number, hmac_value, secret_key)` as the source does. -/
def generate_fair_number (keyedHash : List Nat → String → String)
    (min_val max_val : Int) (secret_key : List Nat) (raw : Nat) :
    Int × String × List Nat :=
  let computer_number : Int := (raw : Int) + min_val
  let hmac_value : String := keyedHash secret_key (toString computer_number)
  (computer_number, hmac_value, secret_key)

/-- Possible outcomes of `Game.determine_first_move`. `mover` records the
returned string ("computer" or "user"), together with the revealed
committed value and key. `blocked` means the modelled streams of
commitments or inputs ran out. -/
inductive FirstMoveOutcome where
  | exitGame
  | mover (who : String) (revealedValue : Int) (revealedKey : List Nat)
  | blocked
deriving DecidableEq

/-- Embeds `Game.determine_first_move` over an explicit stream of
commitments (successive `generate_fair_number` outputs — note the source
generates a fresh one on every recursive retry) and a stream of user
input strings. -/
def determine_first_move_run :
    List Commitment → List String → FirstMoveOutcome
  | c :: cs, g :: inputs =>
    match classify g with
    | InputAction.exit => FirstMoveOutcome.exitGame
    | InputAction.help => determine_first_move_run cs inputs
    | InputAction.val u =>
        if u = 0 ∨ u = 1 then
          FirstMoveOutcome.mover (if c.value ≠ u then "computer" else "user")
            c.value c.key
        else determine_first_move_run cs inputs
    | InputAction.invalid => determine_first_move_run cs inputs
  | _, _ => FirstMoveOutcome.blocked

/-- Count of ordered face pairs won by the first die (first component
strictly greater). -/
def gtCount (a b : List Int) : Nat :=
  (allPairs a b).countP fun p => decide (p.2 < p.1)

/-- Count of ordered face pairs that tie exactly. -/
def tieCount (a b : List Int) : Nat :=
  (allPairs a b).countP fun p => decide (p.1 = p.2)

/-- The combination operation of the fairness protocol; in the source it is
the inline expression `(computer_number + user_number) % 6` of
`Game.play_throw` (the spec names it `combine(computer_value, user_value,
modulus)`). Python `%` with a positive modulus agrees with `Int.emod`. -/
def combine (computer_value user_value modulus : Int) : Int :=
  (computer_value + user_value) % modulus

/-- Models Python list indexing `l[i]`: non-negative indices from the
front, negative indices from the back, `IndexError` (modelled as `none`)
outside `[-len, len)`. -/
def pyGet {α : Type} (l : List α) (i : Int) : Option α :=
  if 0 ≤ i then l.get? i.toNat
  else if 0 ≤ i + l.length then l.get? (i + l.length).toNat
  else none

/-- Embeds `Dice.roll`: `self.values[index]`, with an out-of-range index
raising `IndexError` (modelled as `none`). -/
def Dice.roll (d : Dice) (index : Int) : Option Int :=
  pyGet d.values index

/-- Possible outcomes of `Game.play_throw`. `thrown` records the revealed
computer value and key, the combined index `(computer + user) % 6` and the
face value returned by `dice.roll`. -/
inductive ThrowOutcome where
  | exitGame
  | thrown (computerValue : Int) (revealedKey : List Nat)
      (combined : Int) (face : Int)
  | raised (msg : String)
  | blocked
deriving DecidableEq

/-- Embeds `Game.play_throw` for the die bound to the throw, over an
explicit stream of commitments (successive `generate_fair_number (0, 5)`
outputs — the source generates a fresh one on every recursive retry) and
a stream of user input strings. A digit outside `[0, 5]` or a
`ValueError` from `int(...)` is caught and retries the step. -/
def play_throw_run (die : Dice) :
    List Commitment → List String → ThrowOutcome
  | c :: cs, inp :: inputs =>
    match classify inp with
    | InputAction.exit => ThrowOutcome.exitGame
    | InputAction.help => play_throw_run die cs inputs
    | InputAction.val u =>
        if 0 ≤ u ∧ u ≤ 5 then
          match Dice.roll die (combine c.value u 6) with
          | some face => ThrowOutcome.thrown c.value c.key (combine c.value u 6) face
          | none => ThrowOutcome.raised "IndexError"
        else play_throw_run die cs inputs
    | InputAction.invalid => play_throw_run die cs inputs
  | _, _ => ThrowOutcome.blocked

/-- Possible outcomes of `Game.user_select_dice`. `selected` records the
chosen die, its index and the updated remaining-index pool; `raised`
records a Python exception escaping the routine uncaught. -/
inductive SelectOutcome where
  | exitGame
  | selected (die : Dice) (index : Int) (remaining : List Int)
  | raised (msg : String)
  | blocked
deriving DecidableEq

/-- Embeds `Game.user_select_dice` over the remaining-index pool and a
stream of user input strings. Faithful to the source: the statement
`print(f"You choose the {self.dice[int(selection)].values} dice.")`
runs BEFORE the `try` block, so a `ValueError` from `int(selection)` or an
`IndexError` from `self.dice[...]` escapes the routine uncaught
(`raised`); only an in-range integer that is not in the remaining pool
falls through to the retry path. -/
def user_select_dice_run (dice : List Dice) :
    List Int → List String → SelectOutcome
  | remaining, inp :: inputs =>
    match classify inp with
    | InputAction.exit => SelectOutcome.exitGame
    | InputAction.help => user_select_dice_run dice remaining inputs
    | InputAction.invalid => SelectOutcome.raised "ValueError"
    | InputAction.val i =>
        match pyGet dice i with
        | none => SelectOutcome.raised "IndexError"
        | some d =>
            if i ∈ remaining then
              SelectOutcome.selected d i (remaining.erase i)
            else user_select_dice_run dice remaining inputs
  | _, [] => SelectOutcome.blocked

/-- Embeds `Dice.__init__`: a die is constructed only from a list of
exactly 6 values; otherwise `ValueError("Each die must have exactly 6
values.")` is raised, modelled as `Except.error`. -/
def mkDice (values : List Int) : Except String Dice :=
  if values.length ≠ 6 then
    Except.error "Each die must have exactly 6 values."
  else Except.ok ⟨values⟩

/-- Models Python `str.split(',')` on a character list: split on every
comma, keeping empty pieces. -/
def splitComma : List Char → List (List Char)
  | [] => [[]]
  | c :: rest =>
      match splitComma rest with
      | [] => [[]]
      | hd :: tl => if c = ',' then [] :: hd :: tl else (c :: hd) :: tl

/-- Embeds the per-argument body of `DiceParser.parse`:
`list(map(int, arg.split(',')))` followed by the `Dice` constructor, with
any `ValueError` of either step caught and re-raised as
`Invalid dice configuration`. -/
def parseOne (arg : String) : Except String Dice :=
  match (splitComma arg.data).mapM (fun piece => pyInt (stripChars piece)) with
  | none => Except.error ("Invalid dice configuration: " ++ arg)
  | some values =>
      match mkDice values with
      | Except.ok d => Except.ok d
      | Except.error _ => Except.error ("Invalid dice configuration: " ++ arg)

/-- The `for arg in args` loop of `DiceParser.parse`: parse each argument
in order, stopping at the first invalid configuration. -/
def parseList : List String → Except String (List Dice)
  | [] => Except.ok []
  | arg :: rest =>
      match parseOne arg with
      | Except.error e => Except.error e
      | Except.ok d =>
          match parseList rest with
          | Except.error e => Except.error e
          | Except.ok ds => Except.ok (d :: ds)

/-- Embeds `DiceParser.parse`: requires at least 3 arguments, then parses
each in order, failing on the first invalid configuration. -/
def DiceParser.parse (args : List String) : Except String (List Dice) :=
  if args.length < 3 then
    Except.error "At least 3 dice configurations are required."
  else parseList args

theorem allPairs_nil_right (b : List Int) : allPairs b [] = [] := by
  induction b with
  | nil => rfl
  | cons y ys ih => simp [allPairs, ih]

theorem allPairs_length (a b : List Int) :
    (allPairs a b).length = a.length * b.length := by
  induction a with
  | nil => simp [allPairs]
  | cons x xs ih =>
      simp [allPairs, ih, Nat.succ_mul, Nat.add_comm]

theorem mem_allPairs (a b : List Int) (p : Int × Int) :
    p ∈ allPairs a b ↔ p.1 ∈ a ∧ p.2 ∈ b := by
  induction a with
  | nil => simp [allPairs]
  | cons x xs ih =>
      cases p with
      | mk u v =>
        simp only [allPairs, List.mem_append, List.mem_map, ih, List.mem_cons]
        constructor
        · rintro (⟨y, hy, h⟩ | ⟨h1, h2⟩)
          · cases h; exact ⟨Or.inl rfl, hy⟩
          · exact ⟨Or.inr h1, h2⟩
        · rintro ⟨h1 | h1, h2⟩
          · subst h1; exact Or.inl ⟨v, h2, rfl⟩
          · exact Or.inr ⟨h1, h2⟩

theorem countP_map_pair (q : Int × Int → Bool) (x : Int) (b : List Int) :
    (b.map fun y => (x, y)).countP q = b.countP fun y => q (x, y) := by
  induction b with
  | nil => rfl
  | cons y ys ih => simp [List.countP_cons, ih]

theorem inner_foldl_eq (x : Int) (b : List Int) (w t : Nat) :
    b.foldl (fun acc2 face_b =>
        ((if face_b < x then acc2.1 + 1 else acc2.1), acc2.2 + 1)) (w, t)
      = (w + b.countP (fun y => decide (y < x)), t + b.length) := by
  induction b generalizing w t with
  | nil => simp
  | cons y ys ih =>
      by_cases h : y < x <;>
        simp [List.countP_cons, h, ih, Prod.ext_iff] <;> omega

theorem outer_foldl_eq (a b : List Int) (w t : Nat) :
    a.foldl (fun acc face_a =>
      b.foldl (fun acc2 face_b =>
        ((if face_b < face_a then acc2.1 + 1 else acc2.1), acc2.2 + 1)) acc) (w, t)
      = (w + gtCount a b, t + a.length * b.length) := by
  induction a generalizing w t with
  | nil => simp [gtCount, allPairs]
  | cons x xs ih =>
      simp only [List.foldl, inner_foldl_eq, ih, gtCount, allPairs,
        List.countP_append, countP_map_pair, List.length_cons]
      refine Prod.ext ?_ ?_ <;> simp <;> ring

theorem compareCounts_eq (a b : List Int) :
    compareCounts a b = (gtCount a b, a.length * b.length) := by
  have h := outer_foldl_eq a b 0 0
  simpa [compareCounts] using h

/-- C4: `compare_dice(A, B)` equals the count of ordered face pairs `(a, b)`
with `a > b`, divided by `|A.values| * |B.values|`, rounded to 4 decimal
digits by the implementation's rounding (round-half-to-even). -/
theorem compare_dice_spec (a b : Dice) (ha : a.values ≠ []) (hb : b.values ≠ []) :
    compare_dice a b
      = round4 ((gtCount a.values b.values : ℚ)
          / ((a.values.length : ℚ) * (b.values.length : ℚ))) := by
  simp [compare_dice, compareCounts_eq, Nat.cast_mul]

/-- Witness for `compare_dice_spec` at the classic intransitive dice pair. -/
theorem compare_dice_spec_witness :
    compare_dice ⟨[2,2,4,4,9,9]⟩ ⟨[1,1,6,6,8,8]⟩
      = round4 ((gtCount [2,2,4,4,9,9] [1,1,6,6,8,8] : ℚ) / ((6 : ℚ) * (6 : ℚ))) := by
  have h := compare_dice_spec ⟨[2,2,4,4,9,9]⟩ ⟨[1,1,6,6,8,8]⟩ (by decide) (by decide)
  simpa using h

theorem classify_zero : classify "0" = InputAction.val 0 := by decide

theorem classify_one : classify "1" = InputAction.val 1 := by decide

/-- C1: the commitment tag returned by `generate_fair_number` is exactly the
keyed hash (HMAC-SHA3-256 hexdigest, modelled by the parameter
`keyedHash`) of the decimal string of the returned value under the
returned key, so recomputing the keyed hash from the revealed
`(value, key)` pair reproduces the published tag; moreover the value lies
in `[min_val, max_val]`. -/
theorem generate_fair_number_commit_reveal
    (keyedHash : List Nat → String → String) (min_val max_val : Int)
    (secret_key : List Nat) (raw : Nat)
    (hrange : min_val ≤ max_val)
    (hraw : (raw : Int) < max_val - min_val + 1) :
    (generate_fair_number keyedHash min_val max_val secret_key raw).2.1
        = keyedHash (generate_fair_number keyedHash min_val max_val secret_key raw).2.2
            (toString (generate_fair_number keyedHash min_val max_val secret_key raw).1)
    ∧ (generate_fair_number keyedHash min_val max_val secret_key raw).2.2 = secret_key
    ∧ min_val ≤ (generate_fair_number keyedHash min_val max_val secret_key raw).1
    ∧ (generate_fair_number keyedHash min_val max_val secret_key raw).1 ≤ max_val := by
  refine ⟨rfl, rfl, ?_, ?_⟩ <;> simp [generate_fair_number] <;> omega

/-- Witness for `generate_fair_number_commit_reveal` at a concrete keyed
hash, range `[0, 1]`, key and raw draw. -/
theorem generate_fair_number_commit_reveal_witness :
    (generate_fair_number (fun _ s => s) 0 1 [7] 1).2.1
        = (fun (_ : List Nat) (s : String) => s)
            (generate_fair_number (fun _ s => s) 0 1 [7] 1).2.2
            (toString (generate_fair_number (fun _ s => s) 0 1 [7] 1).1)
    ∧ (generate_fair_number (fun _ s => s) 0 1 [7] 1).2.2 = [7]
    ∧ (0 : Int) ≤ (generate_fair_number (fun _ s => s) 0 1 [7] 1).1
    ∧ (generate_fair_number (fun _ s => s) 0 1 [7] 1).1 ≤ 1 :=
  generate_fair_number_commit_reveal (fun _ s => s) 0 1 [7] 1
    (by decide) (by decide)

/-- C2: for a committed computer value in `{0,1}` and an accepted human
guess in `{0,1}`, `determine_first_move` makes the computer the first
mover exactly when the committed value differs from the guess, and makes
the human the first mover when they are equal. -/
theorem determine_first_move_decision (c g : Int) (tag : String)
    (key : List Nat) (cs : List Commitment) (s : String)
    (inputs : List String)
    (hc : c = 0 ∨ c = 1) (hg : g = 0 ∨ g = 1)
    (hs : classify s = InputAction.val g) :
    (determine_first_move_run (⟨c, tag, key⟩ :: cs) (s :: inputs)
        = FirstMoveOutcome.mover "computer" c key ↔ c ≠ g)
    ∧ (c = g →
        determine_first_move_run (⟨c, tag, key⟩ :: cs) (s :: inputs)
          = FirstMoveOutcome.mover "user" c key) := by
  rcases hc with rfl | rfl <;> rcases hg with rfl | rfl <;>
    simp [determine_first_move_run, hs]

/-- Witness for `determine_first_move_decision`: committed value 1,
guess "0". -/
theorem determine_first_move_decision_witness :
    (determine_first_move_run [⟨1, "tag", [5]⟩] ["0"]
        = FirstMoveOutcome.mover "computer" 1 [5] ↔ (1 : Int) ≠ 0)
    ∧ ((1 : Int) = 0 →
        determine_first_move_run [⟨1, "tag", [5]⟩] ["0"]
          = FirstMoveOutcome.mover "user" 1 [5]) :=
  determine_first_move_decision 1 0 "tag" [5] [] "0" []
    (Or.inr rfl) (Or.inl rfl) (by decide)

/-- C3 counterexample: with committed value 0 and accepted guess "0"
(guess equals the hidden value), `determine_first_move` returns "user" —
in `start_game` this means the human makes the first move, contradicting
the claim that the human is not the first mover in this scenario. -/
theorem first_move_equal_guess_counterexample :
    determine_first_move_run [⟨0, "tag", [5]⟩] ["0"]
        = FirstMoveOutcome.mover "user" 0 [5]
    ∧ FirstMoveOutcome.mover "user" 0 [5]
        ≠ FirstMoveOutcome.mover "computer" 0 [5] := by
  constructor
  · simp [determine_first_move_run, classify_zero]
  · decide

/-- C3 (amended): when the human's accepted guess equals the computer's
committed hidden value, the human IS the first mover
(`determine_first_move` returns "user"); the computer moves first only
when the two values differ. -/
theorem first_move_equal_guess (c g : Int) (tag : String) (key : List Nat)
    (cs : List Commitment) (s : String) (inputs : List String)
    (hc : c = 0 ∨ c = 1) (hg : g = 0 ∨ g = 1)
    (hs : classify s = InputAction.val g) (heq : c = g) :
    determine_first_move_run (⟨c, tag, key⟩ :: cs) (s :: inputs)
      = FirstMoveOutcome.mover "user" c key := by
  subst heq
  rcases hc with rfl | rfl <;> simp [determine_first_move_run, hs]

/-- Witness for `first_move_equal_guess`: committed value 1, guess "1". -/
theorem first_move_equal_guess_witness :
    determine_first_move_run [⟨1, "t", [3]⟩] ["1"]
      = FirstMoveOutcome.mover "user" 1 [3] :=
  first_move_equal_guess 1 1 "t" [3] [] "1" []
    (Or.inr rfl) (Or.inr rfl) (by decide) rfl

theorem countP_allPairs_cons_right (r : Int × Int → Bool) (b : List Int)
    (x : Int) (xs : List Int) :
    (allPairs b (x :: xs)).countP r
      = b.countP (fun y => r (y, x)) + (allPairs b xs).countP r := by
  induction b with
  | nil => simp [allPairs]
  | cons y ys ih =>
      simp only [allPairs, List.countP_append, List.countP_cons,
        countP_map_pair, ih]
      omega

theorem countP_allPairs_swap (q : Int × Int → Bool) (a b : List Int) :
    (allPairs a b).countP q
      = (allPairs b a).countP (fun p => q (p.2, p.1)) := by
  induction a with
  | nil => simp [allPairs, allPairs_nil_right]
  | cons x xs ih =>
      simp only [allPairs, List.countP_append, countP_map_pair, ih,
        countP_allPairs_cons_right]

theorem countP_pairs_trichotomy (l : List (Int × Int)) :
    ((l.countP fun p => decide (p.2 < p.1))
        + (l.countP fun p => decide (p.1 < p.2))
        + (l.countP fun p => decide (p.1 = p.2))) = l.length := by
  induction l with
  | nil => rfl
  | cons p ps ih =>
      obtain ⟨u, v⟩ := p
      rcases lt_trichotomy u v with h | h | h
      · simp only [List.countP_cons]
        simp [h, h.ne, asymm h]
        omega
      · subst h
        simp only [List.countP_cons]
        simp [lt_irrefl]
        omega
      · simp only [List.countP_cons]
        simp [h, h.ne', asymm h]
        omega

theorem gtCount_add_swap (a b : List Int) :
    gtCount a b + gtCount b a + tieCount a b = a.length * b.length := by
  have hswap : gtCount b a
      = (allPairs a b).countP (fun p => decide (p.1 < p.2)) := by
    unfold gtCount
    rw [countP_allPairs_swap]
  have htri := countP_pairs_trichotomy (allPairs a b)
  rw [allPairs_length] at htri
  rw [hswap]
  unfold gtCount tieCount
  omega

theorem abs_roundHalfEven_sub_le (q : ℚ) :
    |(roundHalfEven q : ℚ) - q| ≤ 1/2 := by
  have h1 : (⌊q⌋ : ℚ) ≤ q := Int.floor_le q
  have h2 : q < ⌊q⌋ + 1 := Int.lt_floor_add_one q
  unfold roundHalfEven
  by_cases hl : q - (⌊q⌋ : ℚ) < 1/2
  · rw [if_pos hl, abs_le]
    constructor <;> linarith
  · rw [if_neg hl]
    push_neg at hl
    by_cases hg : 1/2 < q - (⌊q⌋ : ℚ)
    · rw [if_pos hg, abs_le]
      push_cast
      constructor <;> linarith
    · push_neg at hg
      rw [if_neg (not_lt.mpr hg)]
      by_cases he : ⌊q⌋ % 2 = 0
      · rw [if_pos he, abs_le]
        constructor <;> linarith
      · rw [if_neg he, abs_le]
        push_cast
        constructor <;> linarith

theorem abs_round4_sub_le (q : ℚ) : |round4 q - q| ≤ 1/20000 := by
  have h := abs_roundHalfEven_sub_le (q * 10000)
  have e : round4 q - q
      = ((roundHalfEven (q * 10000) : ℚ) - q * 10000) / 10000 := by
    unfold round4
    ring
  rw [e, abs_div, abs_of_pos (by norm_num : (0:ℚ) < 10000)]
  linarith

theorem roundHalfEven_eq_next (q : ℚ) (n : ℤ) (h1 : (n : ℚ) ≤ q)
    (h3 : q < (n : ℚ) + 1) (h2 : 1/2 < q - (n : ℚ)) :
    roundHalfEven q = n + 1 := by
  have hf : ⌊q⌋ = n := Int.floor_eq_iff.mpr ⟨h1, by push_cast; linarith⟩
  unfold roundHalfEven
  rw [hf, if_neg (by linarith), if_pos h2]

theorem round4_eq_next (q : ℚ) (n : ℤ) (h1 : (n : ℚ) ≤ q * 10000)
    (h3 : q * 10000 < (n : ℚ) + 1) (h2 : 1/2 < q * 10000 - (n : ℚ)) :
    round4 q = ((n : ℚ) + 1) / 10000 := by
  unfold round4
  rw [roundHalfEven_eq_next (q * 10000) n h1 h3 h2]
  push_cast
  ring

theorem compare_dice_eval_nearly_flat :
    compare_dice ⟨[1,1,1,1,1,2]⟩ ⟨[1,1,1,1,1,2]⟩ = 1389/10000 := by
  have hc : compareCounts [1,1,1,1,1,2] [1,1,1,1,1,2] = (5, 36) := by decide
  simp only [compare_dice, hc]
  push_cast
  rw [round4_eq_next ((5:ℚ)/36) 1388 (by norm_num) (by norm_num) (by norm_num)]
  norm_num

theorem compare_dice_eval_std :
    compare_dice ⟨[1,2,3,4,5,6]⟩ ⟨[1,2,3,4,5,6]⟩ = 4167/10000 := by
  have hc : compareCounts [1,2,3,4,5,6] [1,2,3,4,5,6] = (15, 36) := by decide
  simp only [compare_dice, hc]
  push_cast
  rw [round4_eq_next ((15:ℚ)/36) 4166 (by norm_num) (by norm_num) (by norm_num)]
  norm_num

theorem tieCount_eval_nearly_flat :
    tieCount [1,1,1,1,1,2] [1,1,1,1,1,2] = 26 := by decide

/-- C6 counterexample: for the die `[1,1,1,1,1,2]` against itself,
`compare_dice(A,B) + compare_dice(B,A)` is `0.2778` while 1 minus the tie
fraction is `10/36 = 0.2777…`, so the claimed exact equality fails (the
two 4-digit roundings together shift the sum). -/
theorem compare_dice_sum_counterexample :
    compare_dice ⟨[1,1,1,1,1,2]⟩ ⟨[1,1,1,1,1,2]⟩
        + compare_dice ⟨[1,1,1,1,1,2]⟩ ⟨[1,1,1,1,1,2]⟩
      ≠ 1 - (tieCount [1,1,1,1,1,2] [1,1,1,1,1,2] : ℚ)
          / ((([1,1,1,1,1,2] : List Int).length : ℚ)
              * (([1,1,1,1,1,2] : List Int).length : ℚ)) := by
  rw [compare_dice_eval_nearly_flat, tieCount_eval_nearly_flat]
  norm_num

/-- C6 (amended): `compare_dice(A,B) + compare_dice(B,A)` equals 1 minus
the fraction of ordered face pairs that tie exactly, up to the rounding
tolerance `1e-4` (each of the two 4-digit roundings contributes at most
`0.5e-4`); in particular for dice sharing no face value the sum equals 1
within `1e-4`. -/
theorem compare_dice_sum_complement (a b : Dice)
    (ha : a.values ≠ []) (hb : b.values ≠ []) :
    |compare_dice a b + compare_dice b a
        - (1 - (tieCount a.values b.values : ℚ)
            / ((a.values.length : ℚ) * (b.values.length : ℚ)))| ≤ 1/10000
    ∧ ((∀ x ∈ a.values, x ∉ b.values) →
        |compare_dice a b + compare_dice b a - 1| ≤ 1/10000) := by
  have hla : 0 < a.values.length := List.length_pos.mpr ha
  have hlb : 0 < b.values.length := List.length_pos.mpr hb
  set N : ℚ := (a.values.length : ℚ) * (b.values.length : ℚ) with hN
  have hn : (0:ℚ) < N := by
    rw [hN]
    exact_mod_cast Nat.mul_pos hla hlb
  have hab : compare_dice a b
      = round4 ((gtCount a.values b.values : ℚ) / N) := by
    simp [compare_dice, compareCounts_eq, hN, Nat.cast_mul]
  have hba : compare_dice b a
      = round4 ((gtCount b.values a.values : ℚ) / N) := by
    simp [compare_dice, compareCounts_eq, hN, Nat.cast_mul, mul_comm]
  have hkey : (gtCount a.values b.values : ℚ)
      + (gtCount b.values a.values : ℚ)
      + (tieCount a.values b.values : ℚ) = N := by
    rw [hN]
    exact_mod_cast gtCount_add_swap a.values b.values
  have hsum : (gtCount a.values b.values : ℚ) / N
      + (gtCount b.values a.values : ℚ) / N
      = 1 - (tieCount a.values b.values : ℚ) / N := by
    field_simp
    linarith
  have e1 := abs_round4_sub_le ((gtCount a.values b.values : ℚ) / N)
  have e2 := abs_round4_sub_le ((gtCount b.values a.values : ℚ) / N)
  have d1 := abs_le.mp e1
  have d2 := abs_le.mp e2
  constructor
  · rw [hab, hba, ← hsum, abs_le]
    constructor <;> linarith
  · intro hdisj
    have hT : tieCount a.values b.values = 0 := by
      unfold tieCount
      rw [List.countP_eq_zero]
      intro p hp
      obtain ⟨hp1, hp2⟩ := (mem_allPairs _ _ p).1 hp
      simp only [decide_eq_true_eq]
      intro he
      exact hdisj p.1 hp1 (he ▸ hp2)
    have hsum1 : (gtCount a.values b.values : ℚ) / N
        + (gtCount b.values a.values : ℚ) / N = 1 := by
      rw [hsum, hT]
      simp
    rw [hab, hba, abs_le]
    constructor <;> linarith

/-- Witness for `compare_dice_sum_complement` at the disjoint classic
pair `[2,2,4,4,9,9]` and `[1,1,6,6,8,8]`. -/
theorem compare_dice_sum_complement_witness :
    |compare_dice ⟨[2,2,4,4,9,9]⟩ ⟨[1,1,6,6,8,8]⟩
        + compare_dice ⟨[1,1,6,6,8,8]⟩ ⟨[2,2,4,4,9,9]⟩ - 1| ≤ 1/10000 :=
  (compare_dice_sum_complement ⟨[2,2,4,4,9,9]⟩ ⟨[1,1,6,6,8,8]⟩
    (by decide) (by decide)).2 (by decide)

/-- C5 counterexample: in the probability matrix for three standard dice,
the diagonal entry is the hardcoded constant `0.3333`, while
`compare_dice` applied to the standard die against an identical copy
yields `0.4167` — so the diagonal is not computed by the off-diagonal
comparison, and the self-comparison is not `0.5` (ties are excluded by
the strict comparison). -/
theorem calc_prob_diag_counterexample :
    ((calculate_probabilities
        [⟨[1,2,3,4,5,6]⟩, ⟨[1,2,3,4,5,6]⟩, ⟨[1,2,3,4,5,6]⟩]).getD 0 []).getD 0 0
        = 3333/10000
    ∧ compare_dice ⟨[1,2,3,4,5,6]⟩ ⟨[1,2,3,4,5,6]⟩ = 4167/10000
    ∧ ((3333 : ℚ)/10000 ≠ 4167/10000)
    ∧ compare_dice ⟨[1,2,3,4,5,6]⟩ ⟨[1,2,3,4,5,6]⟩ ≠ 1/2 := by
  refine ⟨rfl, compare_dice_eval_std, by norm_num, ?_⟩
  rw [compare_dice_eval_std]
  norm_num

/-- C5 (amended): every diagonal entry of `calculate_probabilities` is the
hardcoded constant `0.3333`, not the self-comparison value; the
self-comparison of the standard die computed by `compare_dice` equals
`0.4167` (strictly below `0.5`, since exact ties are not counted as
wins). -/
theorem calc_prob_diag_hardcoded (dice : List Dice) (i : Nat)
    (h : i < dice.length) :
    ((calculate_probabilities dice).getD i []).getD i 0 = 3333/10000
    ∧ compare_dice ⟨[1,2,3,4,5,6]⟩ ⟨[1,2,3,4,5,6]⟩ = 4167/10000 := by
  constructor
  · unfold calculate_probabilities
    rw [List.getD_eq_getElem?_getD, List.getD_eq_getElem?_getD,
      List.getElem?_map, List.getElem?_range h]
    simp only [Option.map_some', Option.getD_some]
    rw [List.getElem?_map, List.getElem?_range h]
    simp
  · exact compare_dice_eval_std

/-- Witness for `calc_prob_diag_hardcoded` at a concrete dice set and
index 1. -/
theorem calc_prob_diag_hardcoded_witness :
    ((calculate_probabilities
        [⟨[2,2,4,4,9,9]⟩, ⟨[1,1,6,6,8,8]⟩, ⟨[3,3,5,5,7,7]⟩]).getD 1 []).getD 1 0
        = 3333/10000
    ∧ compare_dice ⟨[1,2,3,4,5,6]⟩ ⟨[1,2,3,4,5,6]⟩ = 4167/10000 :=
  calc_prob_diag_hardcoded
    [⟨[2,2,4,4,9,9]⟩, ⟨[1,1,6,6,8,8]⟩, ⟨[3,3,5,5,7,7]⟩] 1 (by decide)

theorem pyGet_eq_getD {α : Type} (l : List α) (i : Int) (d : α)
    (h0 : 0 ≤ i) (hl : i.toNat < l.length) :
    pyGet l i = some (l.getD i.toNat d) := by
  unfold pyGet
  rw [if_pos h0, List.getD_eq_getElem?_getD, List.get?_eq_getElem?,
    List.getElem?_eq_getElem hl]
  rfl

/-- C7: for a committed computer value in `[0,5]` and an accepted user
digit in `[0,5]`, `play_throw` returns the face value of the bound die at
index `(c + u) % 6`; that index is always in bounds for a 6-face die, and
the combination `(v + w) % m` is total with result in `[0, m)` for every
modulus `m > 0`. -/
theorem play_throw_combines (die : Dice) (c u : Int) (tag : String)
    (key : List Nat) (cs : List Commitment) (s : String)
    (inputs : List String) (hdie : die.values.length = 6)
    (hc0 : 0 ≤ c) (hc5 : c ≤ 5) (hu0 : 0 ≤ u) (hu5 : u ≤ 5)
    (hs : classify s = InputAction.val u) :
    play_throw_run die (⟨c, tag, key⟩ :: cs) (s :: inputs)
        = ThrowOutcome.thrown c key (combine c u 6)
            (die.values.getD (combine c u 6).toNat 0)
    ∧ (combine c u 6).toNat < die.values.length
    ∧ (∀ v w m : Int, 0 < m → 0 ≤ combine v w m ∧ combine v w m < m) := by
  have hmod0 : 0 ≤ combine c u 6 := Int.emod_nonneg _ (by norm_num)
  have hmod6 : combine c u 6 < 6 := Int.emod_lt_of_pos _ (by norm_num)
  have hidx : (combine c u 6).toNat < die.values.length := by
    rw [hdie]
    omega
  refine ⟨?_, hidx, ?_⟩
  · have hroll : Dice.roll die (combine c u 6)
        = some (die.values.getD (combine c u 6).toNat 0) :=
      pyGet_eq_getD _ _ _ hmod0 hidx
    simp only [play_throw_run, hs]
    rw [if_pos ⟨hu0, hu5⟩, hroll]
  · intro v w m hm
    exact ⟨Int.emod_nonneg _ hm.ne', Int.emod_lt_of_pos _ hm⟩

/-- Witness for `play_throw_combines`: die `[10,…,15]`, committed value 1,
digit "2"; the result is face `values[3] = 13`. -/
theorem play_throw_combines_witness :
    play_throw_run ⟨[10,11,12,13,14,15]⟩ [⟨1, "t", [9]⟩] ["2"]
        = ThrowOutcome.thrown 1 [9] (combine 1 2 6)
            (([10,11,12,13,14,15] : List Int).getD (combine 1 2 6).toNat 0)
    ∧ (combine 1 2 6).toNat < ([10,11,12,13,14,15] : List Int).length := by
  have h := play_throw_combines ⟨[10,11,12,13,14,15]⟩ 1 2 "t" [9] [] "2" []
    rfl (by decide) (by decide) (by decide) (by decide) (by decide)
  exact ⟨h.1, h.2.1⟩

/-- C8 (code bug evidence): at the die-selection step, the statement
`print(f"You choose the {self.dice[int(selection)].values} dice.")` runs
before the `try` block, so the malformed selection "abc" raises an
uncaught `ValueError` (and the out-of-range selection "7" an uncaught
`IndexError`) instead of re-prompting: the error escapes the step and
aborts the session. -/
theorem user_select_dice_uncaught :
    user_select_dice_run
        [⟨[1,1,1,1,1,1]⟩, ⟨[2,2,2,2,2,2]⟩, ⟨[3,3,3,3,3,3]⟩]
        [0, 1, 2] ["abc"] = SelectOutcome.raised "ValueError"
    ∧ user_select_dice_run
        [⟨[1,1,1,1,1,1]⟩, ⟨[2,2,2,2,2,2]⟩, ⟨[3,3,3,3,3,3]⟩]
        [0, 1, 2] ["7"] = SelectOutcome.raised "IndexError" := by
  decide

/-- C9 counterexample: at a throw, the malformed input "abc" makes
`play_throw` retry by recursion, and the retry generates a FRESH
commitment (the second stream element, value 1, key `[2]`): the outcome
is `thrown 1 [2] 3 13`, not the outcome `thrown 0 [1] 2 12` that
consuming the originally published, not-yet-consumed commitment
(value 0, key `[1]`) would have produced. -/
theorem play_throw_retry_counterexample :
    play_throw_run ⟨[10,11,12,13,14,15]⟩
        [⟨0, "tag0", [1]⟩, ⟨1, "tag1", [2]⟩] ["abc", "2"]
      = ThrowOutcome.thrown 1 [2] 3 13
    ∧ ThrowOutcome.thrown 1 [2] 3 13 ≠ ThrowOutcome.thrown 0 [1] 2 12 := by
  decide

/-- C9 (amended): malformed input at a committed interactive step
re-prompts by a recursive call that DISCARDS the pending published
commitment and generates a fresh one: the retried step runs on the tail
of the commitment stream, both in `play_throw` and in
`determine_first_move`. -/
theorem retry_discards_commitment (die : Dice) (c0 c1 : Commitment)
    (cs : List Commitment) (s : String) (rest : List String)
    (hs : classify s = InputAction.invalid) :
    play_throw_run die (c0 :: c1 :: cs) (s :: rest)
        = play_throw_run die (c1 :: cs) rest
    ∧ determine_first_move_run (c0 :: c1 :: cs) (s :: rest)
        = determine_first_move_run (c1 :: cs) rest := by
  constructor
  · simp only [play_throw_run, hs]
  · simp only [determine_first_move_run, hs]

/-- Witness for `retry_discards_commitment` at input "abc". -/
theorem retry_discards_commitment_witness :
    play_throw_run ⟨[10,11,12,13,14,15]⟩
        [⟨0, "t0", [1]⟩, ⟨1, "t1", [2]⟩] ["abc", "2"]
        = play_throw_run ⟨[10,11,12,13,14,15]⟩ [⟨1, "t1", [2]⟩] ["2"]
    ∧ determine_first_move_run [⟨0, "t0", [1]⟩, ⟨1, "t1", [2]⟩] ["abc", "2"]
        = determine_first_move_run [⟨1, "t1", [2]⟩] ["2"] :=
  retry_discards_commitment ⟨[10,11,12,13,14,15]⟩ ⟨0, "t0", [1]⟩
    ⟨1, "t1", [2]⟩ [] "abc" ["2"] (by decide)

theorem mkDice_ok_length (values : List Int) (d : Dice)
    (h : mkDice values = Except.ok d) : d.values.length = 6 := by
  unfold mkDice at h
  by_cases h6 : values.length ≠ 6
  · rw [if_pos h6] at h
    cases h
  · rw [if_neg h6] at h
    injection h with h2
    rw [← h2]
    push_neg at h6
    exact h6

theorem parseOne_ok_length (arg : String) (d : Dice)
    (h : parseOne arg = Except.ok d) : d.values.length = 6 := by
  unfold parseOne at h
  cases hm : (splitComma arg.data).mapM (fun piece => pyInt (stripChars piece)) with
  | none =>
      rw [hm] at h
      cases h
  | some values =>
      rw [hm] at h
      dsimp only at h
      cases hk : mkDice values with
      | error e =>
          rw [hk] at h
          cases h
      | ok d2 =>
          rw [hk] at h
          injection h with h2
          subst h2
          exact mkDice_ok_length values d2 hk

theorem parseList_ok_lengths : ∀ (args : List String) (ds : List Dice),
    parseList args = Except.ok ds → ∀ die ∈ ds, die.values.length = 6 := by
  intro args
  induction args with
  | nil =>
      intro ds h die hdie
      unfold parseList at h
      injection h with h2
      subst h2
      cases hdie
  | cons a as ih =>
      intro ds h die hdie
      unfold parseList at h
      cases ha : parseOne a with
      | error e =>
          rw [ha] at h
          cases h
      | ok d =>
          rw [ha] at h
          cases hr : parseList as with
          | error e =>
              rw [hr] at h
              cases h
          | ok ds2 =>
              rw [hr] at h
              injection h with h2
              subst h2
              rcases List.mem_cons.mp hdie with rfl | hmem
              · exact parseOne_ok_length a die ha
              · exact ih ds2 hr die hmem

/-- C10: the face count is hardcoded to 6: `Dice.__init__` rejects any
values list whose length is not 6, every successfully constructed die has
exactly 6 faces, every dice list produced by `DiceParser.parse` contains
only 6-faced dice, and parsing four mutually consistent 5-faced dice
fails with the invalid-configuration error. -/
theorem dice_face_count_fixed :
    (∀ values : List Int, values.length ≠ 6 →
        mkDice values = Except.error "Each die must have exactly 6 values.")
    ∧ (∀ (values : List Int) (d : Dice), mkDice values = Except.ok d →
        d.values.length = 6)
    ∧ (∀ (args : List String) (ds : List Dice),
        DiceParser.parse args = Except.ok ds →
        ∀ die ∈ ds, die.values.length = 6)
    ∧ DiceParser.parse ["1,2,3,4,5", "1,2,3,4,5", "1,2,3,4,5", "1,2,3,4,5"]
        = Except.error "Invalid dice configuration: 1,2,3,4,5" := by
  refine ⟨?_, mkDice_ok_length, ?_, ?_⟩
  · intro values h
    unfold mkDice
    rw [if_pos h]
  · intro args ds h die hdie
    unfold DiceParser.parse at h
    by_cases h3 : args.length < 3
    · rw [if_pos h3] at h
      cases h
    · rw [if_neg h3] at h
      exact parseList_ok_lengths args ds h die hdie
  · rfl

/-- Witness for `dice_face_count_fixed` at a 5-element values list. -/
theorem dice_face_count_fixed_witness :
    mkDice [1,2,3,4,5] = Except.error "Each die must have exactly 6 values." :=
  dice_face_count_fixed.1 [1,2,3,4,5] (by decide)
